import Mathlib

/-!
Shallow embedding of the `btc-analyzer` analytics core (packages
`internal/types`, `internal/timeseries`, `internal/indicators`,
`internal/statistics`, `internal/patterns`, `internal/analyzer`).

Conventions of the embedding:
* Go `float64` values are modelled as exact rationals `ℚ`; every arithmetic
  operation in the source maps to the corresponding exact operation.
  Division by zero in `ℚ` yields `0`; every division in the source is either
  guarded by the code itself or by the hypotheses of the theorems below.
* `time.Time` timestamps are modelled as integers (nanoseconds since epoch);
  `t1.Before(t2)` is `t1 < t2`.
* `math.Sqrt` (and `math.Log`, used only for log returns) have no exact
  rational counterpart; they enter the code only through values that the
  claims do not inspect and through the sign test `downsideDeviation > 0`.
  They are therefore passed as explicit function parameters `sq` (resp. `lg`);
  theorems that depend on a property of `math.Sqrt` state exactly the property
  used, namely that `math.Sqrt x > 0 ↔ x > 0` (true of the real square root
  on the non-negative reals, and `math.Sqrt` is applied only to non-negative
  arguments here).
* Go slices become `List`s; `make([]float64, n)` is a zero-filled list and a
  write loop over a prefix leaves the remaining slots at `0`.
* Go maps built by the code are modelled as association lists in insertion
  order; all keys inserted by a single function are pairwise distinct, so
  `List.lookup` agrees with Go map indexing.
* `sort.Slice`/`sort.Float64s` (Go standard library, not part of this
  repository) are modelled as a stable insertion sort over the reflexive
  closure of the strict comparator, which realises the Go sort contract
  (a permutation of the input that is pairwise non-decreasing) and, like the
  Go implementation, leaves an already-sorted slice unchanged.
-/

namespace BTCAnalyzer

/-- OHLCV bar, `types.BTCPrice`: timestamp plus open/high/low/close/volume. -/
structure BTCPrice where
  timestamp : ℤ
  openP : ℚ
  high : ℚ
  low : ℚ
  close : ℚ
  volume : ℚ
  deriving DecidableEq, Repr

/-- Series of bars with a symbol, `types.BTCTimeSeries`. -/
structure BTCTimeSeries where
  symbol : String
  data : List BTCPrice
  deriving DecidableEq, Repr

/-- Zero value `types.BTCPrice{}` of Go. -/
def zeroPrice : BTCPrice := ⟨0, 0, 0, 0, 0, 0⟩

/-- Comparator underlying `timeseries.Sort`: ascending by timestamp
(the reflexive closure of `Timestamp.Before`). -/
def tsLE (a b : BTCPrice) : Prop := a.timestamp ≤ b.timestamp

instance : DecidableRel tsLE :=
  fun a b => inferInstanceAs (Decidable (a.timestamp ≤ b.timestamp))

/-- Function `timeseries.Sort`: sorts the bars by timestamp
(`sort.Slice` with the `Before` comparator, see the module docstring). -/
def sortSeries (bts : BTCTimeSeries) : BTCTimeSeries :=
  { bts with data := bts.data.insertionSort tsLE }

/-- Function `sort.Float64s`, used on plain numeric slices. -/
def sortQ (l : List ℚ) : List ℚ := l.insertionSort (· ≤ ·)

/-- Function `timeseries.GetClosePrices`. -/
def getClosePrices (bts : BTCTimeSeries) : List ℚ := bts.data.map (·.close)

/-- Function `timeseries.GetVolumeData`. -/
def getVolumeData (bts : BTCTimeSeries) : List ℚ := bts.data.map (·.volume)

/-- Function `timeseries.GetLatestPrice`: zero bar on empty input, otherwise
sorts and returns the last bar. -/
def getLatestPrice (bts : BTCTimeSeries) : BTCPrice :=
  if bts.data = [] then zeroPrice
  else ((sortSeries bts).data).getLastD zeroPrice

/-! ## Indicators: RSI (`indicators.CalculateRSI`) -/

/-- Price-change sequence of `CalculateRSI`:
`changes[i-1] = prices[i] - prices[i-1]`. -/
def changesOf : List ℚ → List ℚ
  | a :: b :: rest => (b - a) :: changesOf (b :: rest)
  | _ => []

/-- Seed accumulation of gains over the first window
(`if changes[i] > 0 { avgGain += changes[i] }`). -/
def seedGain : List ℚ → ℚ
  | [] => 0
  | c :: cs => (if c > 0 then c else 0) + seedGain cs

/-- Seed accumulation of losses over the first window
(`else { avgLoss += math.Abs(changes[i]) }`; for `c ≤ 0`, `|c| = -c`). -/
def seedLoss : List ℚ → ℚ
  | [] => 0
  | c :: cs => (if c > 0 then 0 else -c) + seedLoss cs

/-- Emitted RSI value: `100` when `avgLoss == 0`, else
`100 - 100/(1 + avgGain/avgLoss)`. -/
def rsiValue (avgGain avgLoss : ℚ) : ℚ :=
  if avgLoss = 0 then 100 else 100 - 100 / (1 + avgGain / avgLoss)

/-- Main smoothing loop of `CalculateRSI` over `changes[period:]`, emitting
one value per change with Wilder smoothing of the averages. -/
def rsiLoop (period : ℕ) : ℚ → ℚ → List ℚ → List ℚ
  | _, _, [] => []
  | avgGain, avgLoss, c :: cs =>
    let gain : ℚ := if c > 0 then c else 0
    let loss : ℚ := if c > 0 then 0 else -c
    let avgGain' := (avgGain * ((period : ℚ) - 1) + gain) / (period : ℚ)
    let avgLoss' := (avgLoss * ((period : ℚ) - 1) + loss) / (period : ℚ)
    rsiValue avgGain' avgLoss' :: rsiLoop period avgGain' avgLoss' cs

/-- Function `indicators.CalculateRSI`.  Go allocates
`rsi := make([]float64, len(prices)-period)` (zero-filled); the loop
`for i := period; i < len(changes); i++` writes positions
`0 .. len(changes)-1-period`, which leaves the final slot at its zero value:
the result is the loop output followed by a trailing `0`. -/
def calculateRSI (bts : BTCTimeSeries) (period : ℕ) : List ℚ :=
  if bts.data.length < period + 1 then []
  else
    let prices := getClosePrices bts
    let changes := changesOf prices
    let avgGain := seedGain (changes.take period) / (period : ℚ)
    let avgLoss := seedLoss (changes.take period) / (period : ℚ)
    rsiLoop period avgGain avgLoss (changes.drop period) ++ [0]

/-! Helpers for building concrete test series. -/

/-- Bar with all four prices equal to `c`, used for concrete inputs. -/
def bar (t : ℤ) (c : ℚ) : BTCPrice := ⟨t, c, c, c, c, 1⟩

/-- Bars for the given close prices at consecutive timestamps starting at `t`. -/
def barsFrom (t : ℤ) : List ℚ → List BTCPrice
  | [] => []
  | c :: cs => bar t c :: barsFrom (t + 1) cs

/-- Series with the given close prices at timestamps `0, 1, 2, …`. -/
def seriesOf (closes : List ℚ) : BTCTimeSeries := ⟨"BTC", barsFrom 0 closes⟩

/-! ## Indicators: EMA and MACD (`indicators.calculateEMA`, `CalculateMACD`) -/

/-- Recurrence loop of `calculateEMA`:
`ema[i] = prices[period-1+i]*k + ema[i-1]*(1-k)` fed with `prices[period:]`. -/
def emaLoop (k : ℚ) : ℚ → List ℚ → List ℚ
  | _, [] => []
  | prev, p :: ps => (p * k + prev * (1 - k)) :: emaLoop k (p * k + prev * (1 - k)) ps

/-- Function `indicators.calculateEMA`: empty when the input is shorter than
`period`, otherwise the simple mean of the first `period` values followed by
the exponential recurrence with multiplier `k = 2/(period+1)`. -/
def calculateEMA (prices : List ℚ) (period : ℕ) : List ℚ :=
  if prices.length < period then []
  else
    let multiplier : ℚ := 2 / ((period : ℚ) + 1)
    let e0 := (prices.take period).sum / (period : ℚ)
    e0 :: emaLoop multiplier e0 (prices.drop period)

/-- Record `types.MACDData`. -/
structure MACDData where
  macd : List ℚ
  signal : List ℚ
  histogram : List ℚ
  deriving DecidableEq, Repr

/-- Zero value `types.MACDData{}`. -/
def emptyMACD : MACDData := ⟨[], [], []⟩

/-- Function `indicators.CalculateMACD`.  The two `make`+loop constructions
with their bounds guards (`if i < len(alignedFastEMA)` and
`if startIdx2+i < len(macdLine)`) are modelled as maps over index ranges with
the same guards; an out-of-bounds index leaves the zero value. -/
def calculateMACD (bts : BTCTimeSeries) (fastPeriod slowPeriod signalPeriod : ℕ) :
    MACDData :=
  let prices := getClosePrices bts
  if prices.length < slowPeriod then emptyMACD
  else
    let fastEMA := calculateEMA prices fastPeriod
    let slowEMA := calculateEMA prices slowPeriod
    let alignedFastEMA := fastEMA.drop (slowPeriod - fastPeriod)
    let macdLine := (List.range slowEMA.length).map (fun i =>
      if i < alignedFastEMA.length then alignedFastEMA.getD i 0 - slowEMA.getD i 0 else 0)
    let signalLine := calculateEMA macdLine signalPeriod
    let startIdx2 := macdLine.length - signalLine.length
    let histogram := (List.range signalLine.length).map (fun i =>
      if startIdx2 + i < macdLine.length
      then macdLine.getD (startIdx2 + i) 0 - signalLine.getD i 0 else 0)
    ⟨macdLine, signalLine, histogram⟩

/-- Record `types.BollingerBandsData`. -/
structure BollingerBandsData where
  upper : List ℚ
  middle : List ℚ
  lower : List ℚ
  deriving DecidableEq, Repr

/-- Function `indicators.CalculateBollingerBands`.  The window at index
`i ∈ [period-1, len)` has mean `sma` and population variance
`sumSquaredDiff/period`; Go takes `stdDev = math.Sqrt(...)`, modelled through
the `sq` parameter. -/
def calculateBollingerBands (sq : ℚ → ℚ) (bts : BTCTimeSeries) (period : ℕ)
    (stdDevFactor : ℚ) : BollingerBandsData :=
  let prices := getClosePrices bts
  if prices.length < period then ⟨[], [], []⟩
  else
    let window := fun (i : ℕ) => (prices.drop (i + 1 - period)).take period
    let sma := fun (i : ℕ) => (window i).sum / (period : ℚ)
    let stdDev := fun (i : ℕ) =>
      sq (((window i).map (fun p => (p - sma i) * (p - sma i))).sum / (period : ℚ))
    let idxs := (List.range prices.length).drop (period - 1)
    ⟨idxs.map (fun i => sma i + stdDevFactor * stdDev i),
     idxs.map (fun i => sma i),
     idxs.map (fun i => sma i - stdDevFactor * stdDev i)⟩

/-! ## Statistics (`internal/statistics`) -/

/-- Record `types.Statistics`. -/
structure Statistics where
  count : ℕ
  mean : ℚ
  median : ℚ
  stdDev : ℚ
  min : ℚ
  max : ℚ
  variance : ℚ
  skewness : ℚ
  kurtosis : ℚ
  deriving DecidableEq, Repr

/-- Zero value `types.Statistics{}`. -/
def zeroStats : Statistics := ⟨0, 0, 0, 0, 0, 0, 0, 0, 0⟩

/-- Function `statistics.Calculate`: descriptive statistics with population
variance; `StdDev = math.Sqrt(variance)` is `sq variance`; skewness and
kurtosis are guarded by `stdDev > 0`. -/
def calcStats (sq : ℚ → ℚ) (values : List ℚ) : Statistics :=
  if values = [] then zeroStats
  else
    let sortedValues := sortQ values
    let n := values.length
    let mean := values.sum / (n : ℚ)
    let median :=
      if n % 2 = 0 then (sortedValues.getD (n / 2 - 1) 0 + sortedValues.getD (n / 2) 0) / 2
      else sortedValues.getD (n / 2) 0
    let variance := (values.map (fun v => (v - mean) * (v - mean))).sum / (n : ℚ)
    let stdDev := sq variance
    let sumCubedDiff := (values.map (fun v => (v - mean) * (v - mean) * (v - mean))).sum
    let sumQuartedDiff := (values.map (fun v => (v - mean) * (v - mean) * (v - mean) * (v - mean))).sum
    let skewness := if stdDev > 0 then sumCubedDiff / (n : ℚ) / (stdDev * stdDev * stdDev) else 0
    let kurtosis :=
      if stdDev > 0 then sumQuartedDiff / (n : ℚ) / (stdDev * stdDev * stdDev * stdDev) - 3 else 0
    ⟨n, mean, median, stdDev, sortedValues.getD 0 0, sortedValues.getD (n - 1) 0,
      variance, skewness, kurtosis⟩

/-- Function `statistics.CalculateReturns`: simple and natural-log returns of
the close prices (`lg` stands for `math.Log`); a non-positive previous price
leaves the zero-initialised slot untouched. -/
def calculateReturns (lg : ℚ → ℚ) (bts : BTCTimeSeries) : List ℚ × List ℚ :=
  if bts.data.length < 2 then ([], [])
  else
    let prices := getClosePrices bts
    let pairs := prices.zip prices.tail
    (pairs.map (fun pc => if 0 < pc.1 then (pc.2 - pc.1) / pc.1 else 0),
     pairs.map (fun pc => if 0 < pc.1 then lg (pc.2 / pc.1) else 0))

/-- Function `statistics.CalculateVolatility`:
`stdDev * math.Sqrt(periodsPerYear)`; `0` on empty input. -/
def calculateVolatility (sq : ℚ → ℚ) (returns : List ℚ) (periodsPerYear : ℚ) : ℚ :=
  if returns.length = 0 then 0
  else (calcStats sq returns).stdDev * sq periodsPerYear

/-- Function `statistics.CalculateSharpeRatio`. -/
def calculateSharpeRatio (sq : ℚ → ℚ) (returns : List ℚ) (riskFreeRate : ℚ)
    (periodsPerYear : ℚ) : ℚ :=
  if returns.length = 0 then 0
  else
    let stats := calcStats sq returns
    if stats.stdDev = 0 then 0
    else (stats.mean * periodsPerYear - riskFreeRate) / (stats.stdDev * sq periodsPerYear)

/-- Inner loop of `statistics.CalculateMaxDrawdown`: tracks the running peak
and the largest observed drawdown. -/
def maxDrawdownLoop : ℚ → ℚ → List ℚ → ℚ
  | maxDD, _, [] => maxDD
  | maxDD, peak, p :: ps =>
    let peak' := if p > peak then p else peak
    let drawdown := (peak' - p) / peak'
    maxDrawdownLoop (if drawdown > maxDD then drawdown else maxDD) peak' ps

/-- Function `statistics.CalculateMaxDrawdown`: `0` on an empty series,
otherwise the loop started with peak `prices[0]` over the whole price list. -/
def calculateMaxDrawdown (bts : BTCTimeSeries) : ℚ :=
  let prices := getClosePrices bts
  match prices with
  | [] => 0
  | p :: _ => maxDrawdownLoop 0 p prices

/-! ## Patterns (`internal/patterns`) -/

/-- Arithmetic mean of a cluster, as computed at flush time by
`patterns.clusterLevels` (`sum / float64(len(currentCluster))`). -/
def clusterMean (c : List ℚ) : ℚ := c.sum / (c.length : ℚ)

/-- Main loop of `patterns.clusterLevels` over the sorted levels: `prev` is the
previous raw level `levels[i-1]`, `currentCluster` the group being built; a
relative gap `|l - prev|/prev ≤ tol` extends the group, otherwise the group is
flushed as its mean; the final group is always flushed. -/
def clusterLoop (tol : ℚ) : List ℚ → ℚ → List ℚ → List ℚ
  | currentCluster, _, [] => [clusterMean currentCluster]
  | currentCluster, prev, l :: ls =>
    if |l - prev| / prev ≤ tol then clusterLoop tol (currentCluster ++ [l]) l ls
    else clusterMean currentCluster :: clusterLoop tol [l] l ls

/-- Function `patterns.clusterLevels`: empty input is returned unchanged,
otherwise the levels are sorted ascending and greedily grouped. -/
def clusterLevels (levels : List ℚ) (tolerance : ℚ) : List ℚ :=
  match sortQ levels with
  | [] => []
  | x :: xs => clusterLoop tolerance [x] x xs

/-- Record `types.SupportResistanceData`. -/
structure SupportResistanceData where
  supportLevels : List ℚ
  resistanceLevels : List ℚ
  deriving DecidableEq, Repr

/-- Support test of `patterns.FindSupportResistanceLevels`: no bar in the
centred window of radius `lookback` has a strictly lower low. -/
def isLocalLow (data : List BTCPrice) (lookback i : ℕ) : Bool :=
  (List.range' (i - lookback) (2 * lookback + 1)).all fun j =>
    j == i || !(decide ((data.getD j zeroPrice).low < (data.getD i zeroPrice).low))

/-- Resistance test of `patterns.FindSupportResistanceLevels`: no bar in the
centred window of radius `lookback` has a strictly higher high. -/
def isLocalHigh (data : List BTCPrice) (lookback i : ℕ) : Bool :=
  (List.range' (i - lookback) (2 * lookback + 1)).all fun j =>
    j == i || !(decide ((data.getD i zeroPrice).high < (data.getD j zeroPrice).high))

/-- Function `patterns.FindSupportResistanceLevels`: requires
`len ≥ 2*lookback`, sorts the series, collects the local extrema over the
index range `[lookback, len-lookback)` and clusters them. -/
def findSupportResistanceLevels (bts : BTCTimeSeries) (lookbackPeriod : ℕ)
    (tolerance : ℚ) : SupportResistanceData :=
  if bts.data.length < lookbackPeriod * 2 then ⟨[], []⟩
  else
    let data := (sortSeries bts).data
    let idxs := List.range' lookbackPeriod (data.length - 2 * lookbackPeriod)
    let supportLevels := idxs.filterMap (fun i =>
      if isLocalLow data lookbackPeriod i then some (data.getD i zeroPrice).low else none)
    let resistanceLevels := idxs.filterMap (fun i =>
      if isLocalHigh data lookbackPeriod i then some (data.getD i zeroPrice).high else none)
    ⟨clusterLevels supportLevels tolerance, clusterLevels resistanceLevels tolerance⟩

/-- Function `patterns.DetectTrend`: classifies the relative change from the
close `period` bars back to the latest close (thresholds ±0.05). -/
def detectTrend (bts : BTCTimeSeries) (period : ℕ) : String :=
  if bts.data.length < period then "insufficient_data"
  else
    let prices := getClosePrices bts
    let startPrice := prices.getD (prices.length - period) 0
    let endPrice := prices.getD (prices.length - 1) 0
    let change := (endPrice - startPrice) / startPrice
    if change > 5 / 100 then "uptrend"
    else if change < -(5 / 100) then "downtrend"
    else "sideways"

/-- Function `patterns.FindPivotPoints`: empty map on an empty series,
otherwise the classic floor-trader pivots computed from `bts.Data[len-1]`,
the last bar in the slice's current order (the function does not sort). -/
def findPivotPoints (bts : BTCTimeSeries) : List (String × ℚ) :=
  if bts.data.length = 0 then []
  else
    let latest := bts.data.getLastD zeroPrice
    let high := latest.high
    let low := latest.low
    let close := latest.close
    let pivot := (high + low + close) / 3
    [("pivot", pivot),
     ("r1", 2 * pivot - low),
     ("s1", 2 * pivot - high),
     ("r2", pivot + (high - low)),
     ("s2", pivot - (high - low)),
     ("r3", high + 2 * (pivot - low)),
     ("s3", low - 2 * (high - pivot))]

/-! ## Risk metrics and the orchestrator (`statistics.GetRiskMetrics`,
`internal/analyzer`) -/

/-- Function `statistics.GetRiskMetrics`, as an association list in insertion
order.  `math.Sqrt` is the parameter `sq`; `1.645` is the exact rational
`1645/1000`; `var5Index := int(0.05*float64(n))` is the truncation `5*n/100`
(exact for every series length arising here). -/
def getRiskMetrics (sq lg : ℚ → ℚ) (bts : BTCTimeSeries) : List (String × ℚ) :=
  if bts.data.length < 30 then []
  else
    let returns := (calculateReturns lg bts).1
    if returns.length = 0 then []
    else
      let volatility := calculateVolatility sq returns 365
      let maxDrawdown := calculateMaxDrawdown bts
      let sharpeRatio := calculateSharpeRatio sq returns 0 365
      let returnStats := calcStats sq returns
      let var95 := returnStats.mean - 1645 / 1000 * returnStats.stdDev
      let sortedReturns := sortQ returns
      let var5Index := 5 * sortedReturns.length / 100
      let cvarPart :=
        if var5Index < sortedReturns.length then
          [("cvar_95", (sortedReturns.take (var5Index + 1)).sum / ((var5Index : ℚ) + 1))]
        else []
      let downsideReturns := returns.filter (fun r => r < 0)
      let sortinoPart :=
        if 0 < downsideReturns.length then
          let downsideDeviation := (calcStats sq downsideReturns).stdDev * sq 365
          if 0 < downsideDeviation then
            [("sortino_ratio", returnStats.mean * 365 / downsideDeviation)]
          else []
        else []
      [("volatility_annual", volatility),
       ("max_drawdown", maxDrawdown),
       ("sharpe_ratio", sharpeRatio),
       ("var_95", var95),
       ("var_95_annual", var95 * sq 365)] ++ cvarPart ++ sortinoPart ++
        [("beta_estimate", volatility / (16 / 100))]

/-- Record `types.BTCAnalytics`. -/
structure BTCAnalytics where
  priceStats : Statistics
  volumeStats : Statistics
  volatility : ℚ
  sharpeRatio : ℚ
  maxDrawdown : ℚ
  returns : List ℚ
  logReturns : List ℚ
  rsi : List ℚ
  macd : MACDData
  bollingerBands : BollingerBandsData
  supportResistance : SupportResistanceData
  deriving DecidableEq, Repr

/-- Zero value `types.BTCAnalytics{}`. -/
def emptyAnalytics : BTCAnalytics :=
  ⟨zeroStats, zeroStats, 0, 0, 0, [], [], [], emptyMACD, ⟨[], [], []⟩, ⟨[], []⟩⟩

/-- Function `analyzer.PerformComprehensiveAnalysis`: assembles the aggregate,
guarding each computation by its length threshold. -/
def performComprehensiveAnalysis (sq lg : ℚ → ℚ) (bts : BTCTimeSeries) : BTCAnalytics :=
  if bts.data.length < 2 then emptyAnalytics
  else
    let prices := getClosePrices bts
    let volumes := getVolumeData bts
    let returns := (calculateReturns lg bts).1
    let logReturns := (calculateReturns lg bts).2
    { priceStats := calcStats sq prices
      volumeStats := calcStats sq volumes
      volatility := if 0 < returns.length then calculateVolatility sq returns 365 else 0
      sharpeRatio := if 0 < returns.length then calculateSharpeRatio sq returns 0 365 else 0
      maxDrawdown := if 0 < returns.length then calculateMaxDrawdown bts else 0
      returns := returns
      logReturns := logReturns
      rsi := if 14 ≤ bts.data.length then calculateRSI bts 14 else []
      macd := if 26 ≤ bts.data.length then calculateMACD bts 12 26 9 else emptyMACD
      bollingerBands :=
        if 20 ≤ bts.data.length then calculateBollingerBands sq bts 20 2 else ⟨[], [], []⟩
      supportResistance :=
        if 10 ≤ bts.data.length then findSupportResistanceLevels bts 5 (2 / 100)
        else ⟨[], []⟩ }

/-- Function `analyzer.GetTradingSignals`, as an association list in insertion
order (all keys are pairwise distinct, so `List.lookup` agrees with Go map
indexing). -/
def getTradingSignals (bts : BTCTimeSeries) (analytics : BTCAnalytics) :
    List (String × String) :=
  let rsiPart :=
    if 0 < analytics.rsi.length then
      let latestRSI := analytics.rsi.getD (analytics.rsi.length - 1) 0
      if latestRSI > 70 then [("RSI", "SELL - Overbought")]
      else if latestRSI < 30 then [("RSI", "BUY - Oversold")]
      else [("RSI", "HOLD - Neutral")]
    else []
  let macdPart :=
    if 1 < analytics.macd.macd.length ∧ 1 < analytics.macd.signal.length then
      let latestMACD := analytics.macd.macd.getD (analytics.macd.macd.length - 1) 0
      let prevMACD := analytics.macd.macd.getD (analytics.macd.macd.length - 2) 0
      let latestSignal := analytics.macd.signal.getD (analytics.macd.signal.length - 1) 0
      let prevSignal := analytics.macd.signal.getD (analytics.macd.signal.length - 2) 0
      if prevMACD ≤ prevSignal ∧ latestMACD > latestSignal then
        [("MACD", "BUY - Bullish crossover")]
      else if prevMACD ≥ prevSignal ∧ latestMACD < latestSignal then
        [("MACD", "SELL - Bearish crossover")]
      else if latestMACD > latestSignal then [("MACD", "HOLD - Bullish")]
      else [("MACD", "HOLD - Bearish")]
    else []
  let bollingerPart :=
    if 0 < analytics.bollingerBands.upper.length then
      let latestPrice := (getLatestPrice bts).close
      let latest := analytics.bollingerBands.upper.length - 1
      let upper := analytics.bollingerBands.upper.getD latest 0
      let lower := analytics.bollingerBands.lower.getD latest 0
      if latestPrice > upper then [("Bollinger", "SELL - Price above upper band")]
      else if latestPrice < lower then [("Bollinger", "BUY - Price below lower band")]
      else [("Bollinger", "HOLD - Price in normal range")]
    else []
  let trendPart :=
    match detectTrend bts 30 with
    | "uptrend" => [("Trend", "BUY - Uptrend detected")]
    | "downtrend" => [("Trend", "SELL - Downtrend detected")]
    | _ => [("Trend", "HOLD - Sideways movement")]
  let srPart :=
    if 0 < analytics.supportResistance.supportLevels.length ∨
        0 < analytics.supportResistance.resistanceLevels.length then
      let latestPrice := (getLatestPrice bts).close
      (if analytics.supportResistance.supportLevels.any
          (fun s => decide (|latestPrice - s| / s < 2 / 100)) then
        [("Support", "BUY - Near support level")]
      else []) ++
      (if analytics.supportResistance.resistanceLevels.any
          (fun r => decide (|latestPrice - r| / r < 2 / 100)) then
        [("Resistance", "SELL - Near resistance level")]
      else [])
    else []
  rsiPart ++ macdPart ++ bollingerPart ++ trendPart ++ srPart

/-! ## Basic lemmas -/

theorem changesOf_length : ∀ l : List ℚ, (changesOf l).length = l.length - 1
  | [] => rfl
  | [_] => rfl
  | a :: b :: rest => by
    simp only [changesOf, List.length_cons]
    rw [changesOf_length (b :: rest)]
    simp

theorem rsiLoop_length (period : ℕ) :
    ∀ (cs : List ℚ) (avgGain avgLoss : ℚ),
      (rsiLoop period avgGain avgLoss cs).length = cs.length
  | [], _, _ => rfl
  | c :: cs, g, l => by
    simp only [rsiLoop, List.length_cons]
    rw [rsiLoop_length period cs]

/-! ## Claim C1: output length of `CalculateRSI` -/

/-- Claim C1, counterexample: for 3 prices and period 1 the returned slice has
2 entries, not `3 - 1 - 1 = 1` as claimed (the slice is allocated with
`len(prices)-period` slots and the loop fills all but the last). -/
theorem calculateRSI_length_counterexample :
    (calculateRSI (seriesOf [1, 2, 3]) 1).length ≠
      (seriesOf [1, 2, 3]).data.length - 1 - 1 := by
  have h : (calculateRSI (seriesOf [1, 2, 3]) 1).length = 2 := by
    norm_num [calculateRSI, seriesOf, barsFrom, bar, getClosePrices, changesOf,
      seedGain, seedLoss, rsiLoop, rsiValue]
  rw [h]
  norm_num [seriesOf, barsFrom]

/-- Claim C1, amended: for every series of length `n` and period with
`n ≥ period+1`, `CalculateRSI` returns a slice of exactly `n - period` values
(the loop computes `n - period - 1` of them and the final slot keeps its zero
value); for `n < period+1` it returns an empty slice. -/
theorem calculateRSI_length (bts : BTCTimeSeries) (period : ℕ) :
    (bts.data.length < period + 1 → calculateRSI bts period = []) ∧
    (period + 1 ≤ bts.data.length →
      (calculateRSI bts period).length = bts.data.length - period) := by
  constructor
  · intro h
    simp [calculateRSI, h]
  · intro h
    have hlt : ¬ bts.data.length < period + 1 := by omega
    simp only [calculateRSI, if_neg hlt, List.length_append, List.length_cons,
      List.length_nil, rsiLoop_length, List.length_drop, changesOf_length,
      getClosePrices, List.length_map]
    omega

/-- Witness for `calculateRSI_length` at concrete inputs: a 1-bar series with
period 1 gives an empty result, and 3 bars with period 1 give `3 - 1 = 2`
values. -/
theorem calculateRSI_length_witness :
    calculateRSI (seriesOf [5]) 1 = [] ∧
    (calculateRSI (seriesOf [1, 2, 3]) 1).length = (seriesOf [1, 2, 3]).data.length - 1 :=
  ⟨(calculateRSI_length (seriesOf [5]) 1).1 (by norm_num [seriesOf, barsFrom]),
   (calculateRSI_length (seriesOf [1, 2, 3]) 1).2 (by norm_num [seriesOf, barsFrom])⟩

/-! ## Claim C10: `timeseries.Sort` is idempotent and sorts ascending -/

/-- Claim C10: sorting is idempotent — sorting a second time (duplicate
timestamps included) returns the identical sequence — and the result is
ordered ascending by timestamp. -/
theorem sortSeries_idempotent (bts : BTCTimeSeries) :
    sortSeries (sortSeries bts) = sortSeries bts ∧
    (sortSeries bts).data.Pairwise tsLE := by
  haveI : IsTotal BTCPrice tsLE := ⟨fun a b => Int.le_total a.timestamp b.timestamp⟩
  haveI : IsTrans BTCPrice tsLE := ⟨fun _ _ _ h1 h2 => le_trans h1 h2⟩
  have hs : (bts.data.insertionSort tsLE).Sorted tsLE :=
    List.sorted_insertionSort tsLE bts.data
  exact ⟨by simp [sortSeries, hs.insertionSort_eq], hs⟩

/-! ## Claim C9: `FindPivotPoints` and unsorted input -/

/-- Two bars out of order by timestamp: the latest bar (timestamp 2) comes
first in the slice. -/
def pivotBugSeries : BTCTimeSeries :=
  ⟨"BTC", [⟨2, 100, 110, 90, 100, 1⟩, ⟨1, 200, 220, 180, 200, 1⟩]⟩

/-- Claim C9: `FindPivotPoints` does not sort; on a series whose bars are out
of timestamp order it computes the pivot from the slice's last bar (timestamp
1, giving 200) instead of the bar with the latest timestamp (timestamp 2,
whose pivot would be `(110+90+100)/3 = 100`).  The single-bar scenario of the
claim (H=110, L=90, C=100) is reproduced by the code. -/
theorem findPivotPoints_ignores_timestamps :
    List.lookup "pivot" (findPivotPoints pivotBugSeries) = some 200 ∧
    (sortSeries pivotBugSeries).data.getLastD zeroPrice =
      ⟨2, 100, 110, 90, 100, 1⟩ ∧
    ((110 : ℚ) + 90 + 100) / 3 = 100 ∧
    findPivotPoints ⟨"BTC", [⟨0, 100, 110, 90, 100, 1⟩]⟩ =
      [("pivot", 100), ("r1", 110), ("s1", 90), ("r2", 120), ("s2", 80),
       ("r3", 130), ("s3", 70)] := by
  refine ⟨?_, ?_, by norm_num, ?_⟩
  · norm_num [findPivotPoints, pivotBugSeries, List.lookup]
  · norm_num [sortSeries, pivotBugSeries, List.insertionSort, List.orderedInsert, tsLE]
  · norm_num [findPivotPoints]

/-! ## Claim C3: RSI values lie in [0, 100] -/

theorem seedGain_nonneg : ∀ l : List ℚ, 0 ≤ seedGain l
  | [] => le_refl 0
  | c :: cs => by
    simp only [seedGain]
    have := seedGain_nonneg cs
    split <;> linarith

theorem seedLoss_nonneg : ∀ l : List ℚ, 0 ≤ seedLoss l
  | [] => le_refl 0
  | c :: cs => by
    simp only [seedLoss]
    have := seedLoss_nonneg cs
    split <;> rename_i hc
    · linarith
    · push_neg at hc
      linarith

theorem rsiValue_bounds {g l : ℚ} (hg : 0 ≤ g) (hl : 0 ≤ l) :
    0 ≤ rsiValue g l ∧ rsiValue g l ≤ 100 := by
  unfold rsiValue
  split <;> rename_i h0
  · norm_num
  · have hlpos : 0 < l := lt_of_le_of_ne hl (Ne.symm h0)
    have hrs : 0 ≤ g / l := div_nonneg hg hl
    have hden : (0 : ℚ) < 1 + g / l := by linarith
    have hfrac_pos : 0 < 100 / (1 + g / l) := by positivity
    have hfrac_le : 100 / (1 + g / l) ≤ 100 := by
      rw [div_le_iff₀ hden]
      nlinarith
    constructor <;> linarith

theorem rsiLoop_bounds (period : ℕ) (hp : 1 ≤ period) :
    ∀ (cs : List ℚ) (g l : ℚ), 0 ≤ g → 0 ≤ l →
      ∀ v ∈ rsiLoop period g l cs, 0 ≤ v ∧ v ≤ 100
  | [], _, _, _, _, v, hv => absurd hv (by simp [rsiLoop])
  | c :: cs, g, l, hg, hl, v, hv => by
    have hper : (1 : ℚ) ≤ (period : ℚ) := by exact_mod_cast hp
    have hgain : (0 : ℚ) ≤ if c > 0 then c else 0 := by split <;> [linarith; exact le_refl 0]
    have hloss : (0 : ℚ) ≤ if c > 0 then 0 else -c := by
      split <;> rename_i hc
      · exact le_refl 0
      · push_neg at hc; linarith
    have hg' : 0 ≤ (g * ((period : ℚ) - 1) + if c > 0 then c else 0) / (period : ℚ) := by
      apply div_nonneg _ (by linarith)
      have : 0 ≤ g * ((period : ℚ) - 1) := mul_nonneg hg (by linarith)
      linarith
    have hl' : 0 ≤ (l * ((period : ℚ) - 1) + if c > 0 then 0 else -c) / (period : ℚ) := by
      apply div_nonneg _ (by linarith)
      have : 0 ≤ l * ((period : ℚ) - 1) := mul_nonneg hl (by linarith)
      linarith
    simp only [rsiLoop, List.mem_cons] at hv
    rcases hv with rfl | hv
    · exact rsiValue_bounds hg' hl'
    · exact rsiLoop_bounds period hp cs _ _ hg' hl' v hv

/-- Claim C3: for every period ≥ 1 and series of length ≥ period+1 every
value returned by `CalculateRSI` lies in [0, 100], and whenever the smoothed
average loss is 0 the emitted value is exactly 100. -/
theorem calculateRSI_bounds (bts : BTCTimeSeries) (period : ℕ) (hp : 1 ≤ period)
    (hlen : period + 1 ≤ bts.data.length) :
    (∀ v ∈ calculateRSI bts period, 0 ≤ v ∧ v ≤ 100) ∧
    (∀ g : ℚ, 0 ≤ g → rsiValue g 0 = 100) := by
  refine ⟨?_, fun g _ => by simp [rsiValue]⟩
  intro v hv
  have hlt : ¬ bts.data.length < period + 1 := by omega
  simp only [calculateRSI, if_neg hlt, List.mem_append, List.mem_singleton] at hv
  rcases hv with hv | rfl
  · have hper : (0 : ℚ) ≤ (period : ℚ) := Nat.cast_nonneg period
    exact rsiLoop_bounds period hp _ _ _
      (div_nonneg (seedGain_nonneg _) hper) (div_nonneg (seedLoss_nonneg _) hper) v hv
  · norm_num

/-- Witness for `calculateRSI_bounds` at three bars with period 1. -/
theorem calculateRSI_bounds_witness :
    (∀ v ∈ calculateRSI (seriesOf [1, 2, 3]) 1, 0 ≤ v ∧ v ≤ 100) ∧
    (∀ g : ℚ, 0 ≤ g → rsiValue g 0 = 100) :=
  calculateRSI_bounds (seriesOf [1, 2, 3]) 1 (le_refl 1)
    (by norm_num [seriesOf, barsFrom])

/-! ## Claim C4: `calculateEMA` length, seed and recurrence -/

theorem emaLoop_length (k : ℚ) : ∀ (l : List ℚ) (prev : ℚ),
    (emaLoop k prev l).length = l.length
  | [], _ => rfl
  | p :: ps, prev => by
    simp only [emaLoop, List.length_cons]
    rw [emaLoop_length k ps]

theorem emaLoop_getD (k : ℚ) : ∀ (l : List ℚ) (prev : ℚ) (i : ℕ), i < l.length →
    (emaLoop k prev l).getD i 0 =
      l.getD i 0 * k + (if i = 0 then prev else (emaLoop k prev l).getD (i - 1) 0) * (1 - k)
  | [], _, i, h => absurd h (by simp)
  | p :: ps, prev, 0, _ => by simp [emaLoop]
  | p :: ps, prev, i + 1, h => by
    simp only [emaLoop, List.getD_cons_succ]
    rw [emaLoop_getD k ps (p * k + prev * (1 - k)) i (by simpa using h)]
    cases i with
    | zero => simp [emaLoop]
    | succ j => simp [emaLoop]

theorem getD_drop : ∀ (l : List ℚ) (n m : ℕ) (d : ℚ),
    (l.drop n).getD m d = l.getD (n + m) d
  | _, 0, _, _ => by simp
  | [], n + 1, m, d => by simp
  | a :: t, n + 1, m, d => by
    have h : n + 1 + m = (n + m) + 1 := by omega
    rw [List.drop_succ_cons, h, List.getD_cons_succ, getD_drop t n m d]

/-- Claim C4: for `1 ≤ period ≤ n`, `calculateEMA` returns
`n - period + 1` values whose first element is the simple mean of the first
`period` inputs and whose element at index `i ≥ 1` is
`values[period-1+i]*k + ema[i-1]*(1-k)` with `k = 2/(period+1)`; for
`n < period` the result is empty. -/
theorem calculateEMA_spec (prices : List ℚ) (period : ℕ) (hp : 1 ≤ period) :
    (prices.length < period → calculateEMA prices period = []) ∧
    (period ≤ prices.length →
      (calculateEMA prices period).length = prices.length - period + 1 ∧
      (calculateEMA prices period).getD 0 0 = (prices.take period).sum / (period : ℚ) ∧
      ∀ i, 1 ≤ i → i < (calculateEMA prices period).length →
        (calculateEMA prices period).getD i 0 =
          prices.getD (period - 1 + i) 0 * (2 / ((period : ℚ) + 1)) +
          (calculateEMA prices period).getD (i - 1) 0 * (1 - 2 / ((period : ℚ) + 1))) := by
  constructor
  · intro h
    simp [calculateEMA, h]
  · intro h
    have hlt : ¬ prices.length < period := by omega
    have hlen : (calculateEMA prices period).length = prices.length - period + 1 := by
      simp only [calculateEMA, if_neg hlt, List.length_cons, emaLoop_length,
        List.length_drop]
    refine ⟨hlen, by simp [calculateEMA, if_neg hlt], ?_⟩
    intro i h1 hi
    obtain ⟨j, rfl⟩ : ∃ j, i = j + 1 := ⟨i - 1, by omega⟩
    have hj : j < (prices.drop period).length := by
      simp only [List.length_drop]
      rw [hlen] at hi
      omega
    simp only [calculateEMA, if_neg hlt, List.getD_cons_succ]
    rw [emaLoop_getD _ _ _ _ hj, getD_drop]
    have harg : period + j = period - 1 + (j + 1) := by omega
    rw [harg]
    cases j with
    | zero => simp
    | succ m => simp

/-- Witness for `calculateEMA_spec`: three values with period 2. -/
theorem calculateEMA_spec_witness :
    (calculateEMA [1, 2, 3] 2).length = ([1, 2, 3] : List ℚ).length - 2 + 1 ∧
    (calculateEMA [1, 2, 3] 2).getD 0 0 = (([1, 2, 3] : List ℚ).take 2).sum / (2 : ℚ) :=
  ⟨((calculateEMA_spec [1, 2, 3] 2 (by norm_num)).2 (by norm_num)).1,
   ((calculateEMA_spec [1, 2, 3] 2 (by norm_num)).2 (by norm_num)).2.1⟩

/-! ## Claim C5: MACD histogram alignment and lengths -/

theorem calculateEMA_length (prices : List ℚ) (period : ℕ) (h : period ≤ prices.length) :
    (calculateEMA prices period).length = prices.length - period + 1 := by
  have hlt : ¬ prices.length < period := by omega
  simp only [calculateEMA, if_neg hlt, List.length_cons, emaLoop_length,
    List.length_drop]

theorem rangeMap_getD (n : ℕ) (f : ℕ → ℚ) (i : ℕ) (d : ℚ) (h : i < n) :
    ((List.range n).map f).getD i d = f i := by
  rw [List.getD_eq_getElem?_getD, List.getElem?_map, List.getElem?_range h]
  rfl

theorem calculateMACD_macd (bts : BTCTimeSeries) (fastPeriod slowPeriod signalPeriod : ℕ)
    (h : ¬ (getClosePrices bts).length < slowPeriod) :
    (calculateMACD bts fastPeriod slowPeriod signalPeriod).macd =
      (List.range (calculateEMA (getClosePrices bts) slowPeriod).length).map (fun i =>
        if i < ((calculateEMA (getClosePrices bts) fastPeriod).drop
            (slowPeriod - fastPeriod)).length
        then ((calculateEMA (getClosePrices bts) fastPeriod).drop
            (slowPeriod - fastPeriod)).getD i 0 -
          (calculateEMA (getClosePrices bts) slowPeriod).getD i 0
        else 0) := by
  simp only [calculateMACD, if_neg h]

theorem calculateMACD_signal (bts : BTCTimeSeries) (fastPeriod slowPeriod signalPeriod : ℕ)
    (h : ¬ (getClosePrices bts).length < slowPeriod) :
    (calculateMACD bts fastPeriod slowPeriod signalPeriod).signal =
      calculateEMA (calculateMACD bts fastPeriod slowPeriod signalPeriod).macd
        signalPeriod := by
  simp only [calculateMACD, if_neg h]

theorem calculateMACD_histogram (bts : BTCTimeSeries) (fastPeriod slowPeriod signalPeriod : ℕ)
    (h : ¬ (getClosePrices bts).length < slowPeriod) :
    (calculateMACD bts fastPeriod slowPeriod signalPeriod).histogram =
      (List.range (calculateMACD bts fastPeriod slowPeriod signalPeriod).signal.length).map
        (fun i =>
          if (calculateMACD bts fastPeriod slowPeriod signalPeriod).macd.length -
              (calculateMACD bts fastPeriod slowPeriod signalPeriod).signal.length + i <
              (calculateMACD bts fastPeriod slowPeriod signalPeriod).macd.length
          then (calculateMACD bts fastPeriod slowPeriod signalPeriod).macd.getD
              ((calculateMACD bts fastPeriod slowPeriod signalPeriod).macd.length -
                (calculateMACD bts fastPeriod slowPeriod signalPeriod).signal.length + i) 0 -
            (calculateMACD bts fastPeriod slowPeriod signalPeriod).signal.getD i 0
          else 0) := by
  simp only [calculateMACD, if_neg h]

/-- Claim C5, counterexample: for closes `[1, 2]` with `fastPeriod = 1`,
`slowPeriod = 2`, `signalPeriod = 3` (a series of length `slowPeriod`, all
period hypotheses of the claim satisfied) the signal line is empty while the
MACD line has one element, so the signal line is shorter by 1, not by
`signalPeriod - 1 = 2`. -/
theorem calculateMACD_shorter_counterexample :
    ¬ ((calculateMACD (seriesOf [1, 2]) 1 2 3).signal.length + (3 - 1) =
        (calculateMACD (seriesOf [1, 2]) 1 2 3).macd.length) := by
  have hn : (getClosePrices (seriesOf [1, 2])).length = 2 := by
    norm_num [seriesOf, barsFrom, getClosePrices]
  have h : ¬ (getClosePrices (seriesOf [1, 2])).length < 2 := by omega
  have hm : (calculateMACD (seriesOf [1, 2]) 1 2 3).macd.length = 1 := by
    rw [calculateMACD_macd _ _ _ _ h]
    simp [calculateEMA_length _ _ (by omega : 2 ≤ (getClosePrices (seriesOf [1, 2])).length), hn]
  have hs : (calculateMACD (seriesOf [1, 2]) 1 2 3).signal.length = 0 := by
    rw [calculateMACD_signal _ _ _ _ h]
    have : (calculateMACD (seriesOf [1, 2]) 1 2 3).macd.length < 3 := by omega
    simp [calculateEMA, this]
  omega

/-- Claim C5, amended: for a series shorter than `slowPeriod` the result is
empty; for a series of length `n ≥ slowPeriod`, periods
`1 ≤ fastPeriod ≤ slowPeriod` and `signalPeriod ≥ 1`, and additionally
`signalPeriod ≤ n - slowPeriod + 1` (so the MACD line is long enough to seed
the signal EMA), the histogram has length `min(len signal, len macd)`,
tail-aligned: `histogram[i] = macd[(len macd - len signal) + i] - signal[i]`,
and the signal line is shorter than the MACD line by `signalPeriod - 1`.
Without the extra hypothesis the signal line is empty and the final
conjunct fails (see the counterexample). -/
theorem calculateMACD_alignment (bts : BTCTimeSeries)
    (fastPeriod slowPeriod signalPeriod : ℕ)
    (hf : 1 ≤ fastPeriod) (hfs : fastPeriod ≤ slowPeriod) (hsp : 1 ≤ signalPeriod) :
    (bts.data.length < slowPeriod →
      calculateMACD bts fastPeriod slowPeriod signalPeriod = emptyMACD) ∧
    (slowPeriod ≤ bts.data.length →
      signalPeriod + slowPeriod ≤ bts.data.length + 1 →
      (calculateMACD bts fastPeriod slowPeriod signalPeriod).histogram.length =
        min (calculateMACD bts fastPeriod slowPeriod signalPeriod).signal.length
          (calculateMACD bts fastPeriod slowPeriod signalPeriod).macd.length ∧
      (calculateMACD bts fastPeriod slowPeriod signalPeriod).signal.length +
        (signalPeriod - 1) =
        (calculateMACD bts fastPeriod slowPeriod signalPeriod).macd.length ∧
      ∀ i < (calculateMACD bts fastPeriod slowPeriod signalPeriod).histogram.length,
        (calculateMACD bts fastPeriod slowPeriod signalPeriod).histogram.getD i 0 =
          (calculateMACD bts fastPeriod slowPeriod signalPeriod).macd.getD
            ((calculateMACD bts fastPeriod slowPeriod signalPeriod).macd.length -
              (calculateMACD bts fastPeriod slowPeriod signalPeriod).signal.length + i) 0 -
          (calculateMACD bts fastPeriod slowPeriod signalPeriod).signal.getD i 0) := by
  have hnp : (getClosePrices bts).length = bts.data.length := by
    simp [getClosePrices]
  constructor
  · intro hlt
    have h : (getClosePrices bts).length < slowPeriod := by omega
    simp [calculateMACD, h]
  · intro hn hsp2
    have h : ¬ (getClosePrices bts).length < slowPeriod := by omega
    have hm : (calculateMACD bts fastPeriod slowPeriod signalPeriod).macd.length =
        bts.data.length - slowPeriod + 1 := by
      rw [calculateMACD_macd _ _ _ _ h]
      simp [calculateEMA_length _ _ (by omega : slowPeriod ≤ (getClosePrices bts).length), hnp]
    have hsig : (calculateMACD bts fastPeriod slowPeriod signalPeriod).signal.length =
        (bts.data.length - slowPeriod + 1) - signalPeriod + 1 := by
      rw [calculateMACD_signal _ _ _ _ h]
      rw [calculateEMA_length _ _ (by omega : signalPeriod ≤
        (calculateMACD bts fastPeriod slowPeriod signalPeriod).macd.length), hm]
    have hhist : (calculateMACD bts fastPeriod slowPeriod signalPeriod).histogram.length =
        (calculateMACD bts fastPeriod slowPeriod signalPeriod).signal.length := by
      rw [calculateMACD_histogram _ _ _ _ h]
      simp
    refine ⟨by rw [hhist]; omega, by omega, ?_⟩
    intro i hi
    rw [hhist, hsig] at hi
    conv_lhs => rw [calculateMACD_histogram _ _ _ _ h]
    rw [rangeMap_getD _ _ _ _ (by rw [hsig]; exact hi)]
    rw [if_pos (by rw [hm, hsig]; omega)]

/-- Witness for `calculateMACD_alignment`: a single bar with `slowPeriod = 2`
gives the empty result, and closes `[1, 2, 3, 4]` with `fastPeriod = 1`,
`slowPeriod = 2`, `signalPeriod = 2` instantiate the alignment branch. -/
theorem calculateMACD_alignment_witness :
    calculateMACD (seriesOf [5]) 1 2 2 = emptyMACD ∧
    (calculateMACD (seriesOf [1, 2, 3, 4]) 1 2 2).histogram.length =
      min (calculateMACD (seriesOf [1, 2, 3, 4]) 1 2 2).signal.length
        (calculateMACD (seriesOf [1, 2, 3, 4]) 1 2 2).macd.length ∧
    (calculateMACD (seriesOf [1, 2, 3, 4]) 1 2 2).signal.length + (2 - 1) =
      (calculateMACD (seriesOf [1, 2, 3, 4]) 1 2 2).macd.length :=
  ⟨(calculateMACD_alignment (seriesOf [5]) 1 2 2 (le_refl 1) (by norm_num)
      (by norm_num)).1 (by norm_num [seriesOf, barsFrom]),
   ((calculateMACD_alignment (seriesOf [1, 2, 3, 4]) 1 2 2 (le_refl 1) (by norm_num)
      (by norm_num)).2 (by norm_num [seriesOf, barsFrom])
      (by norm_num [seriesOf, barsFrom])).1,
   ((calculateMACD_alignment (seriesOf [1, 2, 3, 4]) 1 2 2 (le_refl 1) (by norm_num)
      (by norm_num)).2 (by norm_num [seriesOf, barsFrom])
      (by norm_num [seriesOf, barsFrom])).2.1⟩

/-! ## Claim C7: maximum drawdown -/

/-- Per-bar drawdown sequence described by the claim: the running peak is
updated bar by bar and each bar contributes `(peak - price)/peak`. -/
def ddList : ℚ → List ℚ → List ℚ
  | _, [] => []
  | peak, p :: ps =>
    ((if p > peak then p else peak) - p) / (if p > peak then p else peak) ::
      ddList (if p > peak then p else peak) ps

/-- Drawdown sequence of a price list, the running peak starting at the first
price (as in `CalculateMaxDrawdown`). -/
def ddOf : List ℚ → List ℚ
  | [] => []
  | p :: ps => ddList p (p :: ps)

theorem if_gt_eq_max (a m : ℚ) : (if a > m then a else m) = max a m := by
  split <;> rename_i h
  · exact (max_eq_left h.le).symm
  · push_neg at h
    exact (max_eq_right h).symm

theorem foldr_max_max (a : ℚ) : ∀ (l : List ℚ) (b : ℚ),
    l.foldr max (max a b) = max a (l.foldr max b)
  | [], _ => rfl
  | c :: t, b => by
    simp only [List.foldr_cons, foldr_max_max a t b]
    rw [max_left_comm]

theorem maxDrawdownLoop_eq_foldr : ∀ (l : List ℚ) (m peak : ℚ),
    maxDrawdownLoop m peak l = (ddList peak l).foldr max m
  | [], _, _ => rfl
  | p :: ps, m, peak => by
    simp only [maxDrawdownLoop, ddList, List.foldr_cons]
    rw [maxDrawdownLoop_eq_foldr ps, if_gt_eq_max, foldr_max_max]

theorem foldr_max_zero_nonneg : ∀ l : List ℚ, 0 ≤ l.foldr max 0
  | [] => le_refl 0
  | c :: t => le_trans (foldr_max_zero_nonneg t) (le_max_right c _)

theorem ddList_monotone_zero : ∀ (l : List ℚ) (peak : ℚ),
    List.Chain (· ≤ ·) peak l → ∀ z ∈ ddList peak l, z = 0
  | [], _, _, z, hz => absurd hz (by simp [ddList])
  | p :: ps, peak, h, z, hz => by
    cases h with
    | cons hpk hch =>
      have hpeak : (if p > peak then p else peak) = p := by
        split <;> rename_i h'
        · rfl
        · push_neg at h'
          exact le_antisymm hpk h'
      simp only [ddList, hpeak, List.mem_cons] at hz
      rcases hz with rfl | hz
      · simp
      · exact ddList_monotone_zero ps p hch z hz

theorem foldr_max_zero_all_zero : ∀ l : List ℚ, (∀ z ∈ l, z = 0) → l.foldr max 0 = 0
  | [], _ => rfl
  | c :: t, h => by
    rw [List.foldr_cons, h c (by simp),
      foldr_max_zero_all_zero t (fun z hz => h z (by simp [hz]))]
    simp

/-- Claim C7: for strictly positive close prices `CalculateMaxDrawdown`
returns the maximum over all bars of `(running peak - price)/running peak`;
it is always ≥ 0, equals 0 on the empty series, and equals 0 whenever the
close-price sequence is monotonically non-decreasing. -/
theorem calculateMaxDrawdown_spec (bts : BTCTimeSeries)
    (hpos : ∀ p ∈ getClosePrices bts, 0 < p) :
    calculateMaxDrawdown bts = (ddOf (getClosePrices bts)).foldr max 0 ∧
    0 ≤ calculateMaxDrawdown bts ∧
    (getClosePrices bts = [] → calculateMaxDrawdown bts = 0) ∧
    (List.Chain' (· ≤ ·) (getClosePrices bts) → calculateMaxDrawdown bts = 0) := by
  clear hpos
  cases hcl : getClosePrices bts with
  | nil =>
    refine ⟨?_, ?_, fun _ => ?_, fun _ => ?_⟩ <;>
      simp [calculateMaxDrawdown, ddOf, hcl]
  | cons p ps =>
    have h1 : calculateMaxDrawdown bts = (ddList p (p :: ps)).foldr max 0 := by
      simp only [calculateMaxDrawdown, hcl]
      exact maxDrawdownLoop_eq_foldr _ _ _
    refine ⟨by simpa [ddOf] using h1, ?_, by simp [hcl], ?_⟩
    · rw [h1]
      exact foldr_max_zero_nonneg _
    · intro hchain
      rw [h1]
      apply foldr_max_zero_all_zero
      apply ddList_monotone_zero
      exact List.Chain.cons (le_refl p) hchain

/-- Witness for `calculateMaxDrawdown_spec` on the rising series `[1, 2, 3]`. -/
theorem calculateMaxDrawdown_spec_witness :
    0 ≤ calculateMaxDrawdown (seriesOf [1, 2, 3]) ∧
    (List.Chain' (· ≤ ·) (getClosePrices (seriesOf [1, 2, 3])) →
      calculateMaxDrawdown (seriesOf [1, 2, 3]) = 0) :=
  ⟨(calculateMaxDrawdown_spec (seriesOf [1, 2, 3])
      (by norm_num [getClosePrices, seriesOf, barsFrom, bar])).2.1,
   (calculateMaxDrawdown_spec (seriesOf [1, 2, 3])
      (by norm_num [getClosePrices, seriesOf, barsFrom, bar])).2.2.2⟩

/-! ## Claim C2: the trailing RSI zero forces the "BUY - Oversold" signal -/

theorem calculateRSI_concat_zero (bts : BTCTimeSeries) (period : ℕ)
    (h : calculateRSI bts period ≠ []) :
    ∃ l, calculateRSI bts period = l ++ [0] := by
  by_cases hg : bts.data.length < period + 1
  · exact absurd (by simp [calculateRSI, hg]) h
  · exact ⟨rsiLoop period
      (seedGain ((changesOf (getClosePrices bts)).take period) / (period : ℚ))
      (seedLoss ((changesOf (getClosePrices bts)).take period) / (period : ℚ))
      ((changesOf (getClosePrices bts)).drop period), by simp [calculateRSI, hg]⟩

theorem getD_last_concat_zero (l : List ℚ) :
    (l ++ [0]).getD ((l ++ [0]).length - 1) 0 = 0 := by
  rw [List.getD_eq_getElem?_getD, List.length_append]
  simp only [List.length_cons, List.length_nil, Nat.zero_add, Nat.add_sub_cancel]
  rw [List.getElem?_append_right (le_refl l.length)]
  simp

theorem getTradingSignals_rsi_lookup (bts : BTCTimeSeries) (analytics : BTCAnalytics)
    (h : analytics.rsi ≠ [])
    (h70 : ¬ analytics.rsi.getD (analytics.rsi.length - 1) 0 > 70)
    (h30 : analytics.rsi.getD (analytics.rsi.length - 1) 0 < 30) :
    List.lookup "RSI" (getTradingSignals bts analytics) = some "BUY - Oversold" := by
  have hlen : 0 < analytics.rsi.length := List.length_pos.mpr h
  simp only [getTradingSignals, if_pos hlen, if_neg h70, if_pos h30]
  simp [List.lookup]

/-- Claim C2: whenever `CalculateRSI` returns a non-empty slice its last
element is the never-assigned zero slot, and consequently whenever the
aggregate built by `PerformComprehensiveAnalysis` has a non-empty RSI
sequence, `GetTradingSignals` maps `"RSI"` to `"BUY - Oversold"` (the latest
RSI value read is `0 < 30`), for every input series. -/
theorem rsi_trailing_zero_signal :
    (∀ (bts : BTCTimeSeries) (period : ℕ), calculateRSI bts period ≠ [] →
      (calculateRSI bts period).getLast? = some 0) ∧
    (∀ (sq lg : ℚ → ℚ) (bts : BTCTimeSeries),
      (performComprehensiveAnalysis sq lg bts).rsi ≠ [] →
      List.lookup "RSI"
        (getTradingSignals bts (performComprehensiveAnalysis sq lg bts)) =
        some "BUY - Oversold") := by
  constructor
  · intro bts period h
    obtain ⟨l, hl⟩ := calculateRSI_concat_zero bts period h
    rw [hl, List.getLast?_concat]
  · intro sq lg bts hA
    have h2 : ¬ bts.data.length < 2 := by
      intro h2
      exact hA (by simp [performComprehensiveAnalysis, h2, emptyAnalytics])
    have hrsiA : (performComprehensiveAnalysis sq lg bts).rsi =
        (if 14 ≤ bts.data.length then calculateRSI bts 14 else []) := by
      simp only [performComprehensiveAnalysis, if_neg h2]
    have h14 : 14 ≤ bts.data.length := by
      by_contra h14
      exact hA (by rw [hrsiA, if_neg h14])
    have hrsi : (performComprehensiveAnalysis sq lg bts).rsi = calculateRSI bts 14 := by
      rw [hrsiA, if_pos h14]
    have hne : calculateRSI bts 14 ≠ [] := by rw [← hrsi]; exact hA
    obtain ⟨l, hl⟩ := calculateRSI_concat_zero bts 14 hne
    have hlast : (performComprehensiveAnalysis sq lg bts).rsi.getD
        ((performComprehensiveAnalysis sq lg bts).rsi.length - 1) 0 = 0 := by
      rw [hrsi, hl]
      exact getD_last_concat_zero l
    exact getTradingSignals_rsi_lookup bts _ hA
      (by rw [hlast]; norm_num) (by rw [hlast]; norm_num)

/-- Witness for `rsi_trailing_zero_signal`: a 3-bar series for the trailing
zero, and 15 rising closes for the signal lookup. -/
theorem rsi_trailing_zero_signal_witness :
    (calculateRSI (seriesOf [1, 2, 3]) 1).getLast? = some 0 ∧
    List.lookup "RSI"
      (getTradingSignals (seriesOf [1, 2, 3, 4, 5, 6, 7, 8, 9, 10, 11, 12, 13, 14, 15])
        (performComprehensiveAnalysis id id
          (seriesOf [1, 2, 3, 4, 5, 6, 7, 8, 9, 10, 11, 12, 13, 14, 15]))) =
      some "BUY - Oversold" := by
  constructor
  · apply rsi_trailing_zero_signal.1 (seriesOf [1, 2, 3]) 1
    have hval : calculateRSI (seriesOf [1, 2, 3]) 1 = [100, 0] := by
      norm_num [calculateRSI, seriesOf, barsFrom, bar, getClosePrices, changesOf,
        seedGain, seedLoss, rsiLoop, rsiValue]
    rw [hval]
    simp
  · apply rsi_trailing_zero_signal.2 id id
    have hg : ¬ (seriesOf [1, 2, 3, 4, 5, 6, 7, 8, 9, 10, 11, 12, 13, 14,
        15]).data.length < 14 + 1 := by
      norm_num [seriesOf, barsFrom]
    have h2 : ¬ (seriesOf [1, 2, 3, 4, 5, 6, 7, 8, 9, 10, 11, 12, 13, 14,
        15]).data.length < 2 := by
      norm_num [seriesOf, barsFrom]
    have h14 : 14 ≤ (seriesOf [1, 2, 3, 4, 5, 6, 7, 8, 9, 10, 11, 12, 13, 14,
        15]).data.length := by
      norm_num [seriesOf, barsFrom]
    have : (performComprehensiveAnalysis id id
        (seriesOf [1, 2, 3, 4, 5, 6, 7, 8, 9, 10, 11, 12, 13, 14, 15])).rsi =
        calculateRSI (seriesOf [1, 2, 3, 4, 5, 6, 7, 8, 9, 10, 11, 12, 13, 14, 15]) 14 := by
      simp only [performComprehensiveAnalysis, if_neg h2, if_pos h14]
    rw [this]
    simp [calculateRSI, hg]

/-! ## Claim C6: idempotence of the level clustering -/

theorem clusterMean_singleton (x : ℚ) : clusterMean [x] = x := by
  simp [clusterMean]

theorem clusterMean_pos {c : List ℚ} (hne : c ≠ []) (hpos : ∀ x ∈ c, 0 < x) :
    0 < clusterMean c := by
  unfold clusterMean
  apply div_pos (List.sum_pos c hpos hne)
  exact_mod_cast List.length_pos.mpr hne

theorem clusterMean_le_of_forall_le {c : List ℚ} (hne : c ≠ []) {B : ℚ}
    (h : ∀ x ∈ c, x ≤ B) : clusterMean c ≤ B := by
  unfold clusterMean
  rw [div_le_iff₀ (by exact_mod_cast List.length_pos.mpr hne)]
  have := List.sum_le_card_nsmul c B h
  rwa [nsmul_eq_mul, mul_comm] at this

theorem clusterMean_le_append {c : List ℚ} (hne : c ≠ []) {l : ℚ}
    (h : ∀ x ∈ c, x ≤ l) : clusterMean c ≤ clusterMean (c ++ [l]) := by
  unfold clusterMean
  have hn : (0 : ℚ) < c.length := by exact_mod_cast List.length_pos.mpr hne
  have hs : c.sum ≤ (c.length : ℚ) * l := by
    have := List.sum_le_card_nsmul c l h
    rwa [nsmul_eq_mul] at this
  have hn2 : (0 : ℚ) < ((c ++ [l]).length : ℚ) := by
    have h0 : 0 < (c ++ [l]).length := by simp
    exact_mod_cast h0
  rw [div_le_div_iff hn hn2]
  simp only [List.sum_append, List.length_append, List.sum_cons, List.sum_nil,
    List.length_cons, List.length_nil]
  push_cast
  nlinarith [hs]

theorem clusterLoop_spec (tol : ℚ) (htol : 0 ≤ tol) :
    ∀ (rest cur : List ℚ) (prev : ℚ),
      cur ≠ [] →
      (∀ x ∈ cur, 0 < x) →
      (∀ x ∈ cur, x ≤ prev) →
      List.Sorted (· ≤ ·) (prev :: rest) →
      (clusterLoop tol cur prev rest ≠ [] ∧
       clusterMean cur ≤ (clusterLoop tol cur prev rest).headD 0 ∧
       (∀ z ∈ clusterLoop tol cur prev rest, 0 < z) ∧
       List.Chain' (fun a b => tol * a < b - a) (clusterLoop tol cur prev rest))
  | [], cur, prev, hne, hpos, _, _ => by
    refine ⟨by simp [clusterLoop], ?_, ?_, ?_⟩
    · simp [clusterLoop]
    · intro z hz
      simp only [clusterLoop, List.mem_singleton] at hz
      subst hz
      exact clusterMean_pos hne hpos
    · simp [clusterLoop]
  | l :: ls, cur, prev, hne, hpos, hle, hsorted => by
    obtain ⟨x0, hx0⟩ := List.exists_mem_of_ne_nil cur hne
    have hprev : 0 < prev := lt_of_lt_of_le (hpos x0 hx0) (hle x0 hx0)
    rw [List.sorted_cons] at hsorted
    obtain ⟨hprevle, hsorted'⟩ := hsorted
    have hpl : prev ≤ l := hprevle l (by simp)
    have hlpos : 0 < l := lt_of_lt_of_le hprev hpl
    by_cases hcond : |l - prev| / prev ≤ tol
    · -- merge branch
      have ih := clusterLoop_spec tol htol ls (cur ++ [l]) l
        (by simp)
        (by
          intro x hx
          rcases List.mem_append.mp hx with hx | hx
          · exact hpos x hx
          · simp only [List.mem_singleton] at hx
            subst hx
            exact hlpos)
        (by
          intro x hx
          rcases List.mem_append.mp hx with hx | hx
          · exact le_trans (hle x hx) hpl
          · simp only [List.mem_singleton] at hx
            subst hx
            exact le_rfl)
        hsorted'
      obtain ⟨hne', hhead', hpos', hchain'⟩ := ih
      refine ⟨?_, ?_, ?_, ?_⟩
      · simpa [clusterLoop, if_pos hcond] using hne'
      · calc clusterMean cur ≤ clusterMean (cur ++ [l]) :=
              clusterMean_le_append hne (fun x hx => le_trans (hle x hx) hpl)
          _ ≤ _ := by simpa [clusterLoop, if_pos hcond] using hhead'
      · intro z hz
        rw [clusterLoop, if_pos hcond] at hz
        exact hpos' z hz
      · rw [clusterLoop, if_pos hcond]
        exact hchain'
    · -- split branch
      have ih := clusterLoop_spec tol htol ls [l] l
        (by simp)
        (by
          intro x hx
          simp only [List.mem_singleton] at hx
          subst hx
          exact hlpos)
        (by
          intro x hx
          simp only [List.mem_singleton] at hx
          subst hx
          exact le_rfl)
        hsorted'
      obtain ⟨hne', hhead', hpos', hchain'⟩ := ih
      obtain ⟨r0, rtail, hrec⟩ : ∃ r0 rtail, clusterLoop tol [l] l ls = r0 :: rtail := by
        cases hrec : clusterLoop tol [l] l ls with
        | nil => exact absurd hrec hne'
        | cons a t => exact ⟨a, t, rfl⟩
      have hr0 : l ≤ r0 := by
        have := hhead'
        rw [clusterMean_singleton, hrec] at this
        exact this
      have hmean_le : clusterMean cur ≤ prev := clusterMean_le_of_forall_le hne hle
      have hmean_pos : 0 < clusterMean cur := clusterMean_pos hne hpos
      have hgap : tol * prev < l - prev := by
        have habs : |l - prev| = l - prev := abs_of_nonneg (by linarith)
        rw [habs, div_le_iff₀ hprev, not_le] at hcond
        linarith
      have hrel : tol * clusterMean cur < r0 - clusterMean cur := by
        have h1 : tol * clusterMean cur ≤ tol * prev :=
          mul_le_mul_of_nonneg_left hmean_le htol
        linarith
      refine ⟨?_, ?_, ?_, ?_⟩
      · simp [clusterLoop, if_neg hcond]
      · rw [clusterLoop, if_neg hcond]
        simp
      · intro z hz
        rw [clusterLoop, if_neg hcond] at hz
        rcases List.mem_cons.mp hz with rfl | hz
        · exact hmean_pos
        · exact hpos' z hz
      · rw [clusterLoop, if_neg hcond, hrec]
        rw [hrec] at hchain'
        exact List.Chain'.cons hrel hchain'

theorem clusterLoop_separated (tol : ℚ) (htol : 0 ≤ tol) :
    ∀ (zt : List ℚ) (z0 : ℚ), 0 < z0 → (∀ z ∈ zt, 0 < z) →
      List.Chain (fun a b => tol * a < b - a) z0 zt →
      clusterLoop tol [z0] z0 zt = z0 :: zt
  | [], z0, _, _, _ => by simp [clusterLoop, clusterMean_singleton]
  | z1 :: zt, z0, hz0, hpos, hch => by
    cases hch with
    | cons h01 hch' =>
      have hz1 : 0 < z1 := hpos z1 (by simp)
      have hlt : z0 < z1 := by nlinarith [mul_nonneg htol hz0.le]
      have hcond : ¬ (|z1 - z0| / z0 ≤ tol) := by
        rw [abs_of_pos (by linarith : (0 : ℚ) < z1 - z0), div_le_iff₀ hz0]
        intro hle₁
        nlinarith
      rw [clusterLoop, if_neg hcond, clusterMean_singleton,
        clusterLoop_separated tol htol zt z1 hz1 (fun z hz => hpos z (by simp [hz])) hch']

theorem chain_sep_sorted (tol : ℚ) (htol : 0 ≤ tol) :
    ∀ l : List ℚ, (∀ z ∈ l, 0 < z) →
      List.Chain' (fun a b => tol * a < b - a) l → List.Sorted (· ≤ ·) l
  | [], _, _ => List.sorted_nil
  | [_], _, _ => List.sorted_singleton _
  | a :: b :: t, hpos, hch => by
    rw [List.chain'_cons] at hch
    have ha : 0 < a := hpos a (by simp)
    have hab : a ≤ b := by nlinarith [hch.1, mul_nonneg htol ha.le]
    have htail : List.Sorted (· ≤ ·) (b :: t) :=
      chain_sep_sorted tol htol (b :: t) (fun z hz => hpos z (by simp [hz])) hch.2
    rw [List.sorted_cons]
    refine ⟨?_, htail⟩
    intro c hc
    rcases List.mem_cons.mp hc with rfl | hc
    · exact hab
    · exact le_trans hab (List.rel_of_sorted_cons htail c hc)

theorem sortQ_sorted (l : List ℚ) : List.Sorted (· ≤ ·) (sortQ l) :=
  List.sorted_insertionSort _ l

theorem sortQ_eq_self {l : List ℚ} (h : List.Sorted (· ≤ ·) l) : sortQ l = l :=
  List.Sorted.insertionSort_eq h

/-- Fixed point: a positive list whose consecutive entries are separated by
more than the tolerance is returned unchanged by `clusterLevels`. -/
theorem clusterLevels_fixed (tol : ℚ) (htol : 0 ≤ tol) (zs : List ℚ)
    (hpos : ∀ z ∈ zs, 0 < z)
    (hch : List.Chain' (fun a b => tol * a < b - a) zs) :
    clusterLevels zs tol = zs := by
  have hsz : sortQ zs = zs := sortQ_eq_self (chain_sep_sorted tol htol zs hpos hch)
  unfold clusterLevels
  rw [hsz]
  cases zs with
  | nil => rfl
  | cons z0 zt =>
    exact clusterLoop_separated tol htol zt z0 (hpos z0 (by simp))
      (fun z hz => hpos z (by simp [hz])) hch

/-- Claim C6: for strictly positive price levels and tolerance ≥ 0,
`clusterLevels` is idempotent — re-clustering its own output with the same
tolerance returns that output unchanged. -/
theorem clusterLevels_idempotent (levels : List ℚ) (tolerance : ℚ)
    (hpos : ∀ x ∈ levels, 0 < x) (htol : 0 ≤ tolerance) :
    clusterLevels (clusterLevels levels tolerance) tolerance =
      clusterLevels levels tolerance := by
  cases hs : sortQ levels with
  | nil =>
    have h1 : clusterLevels levels tolerance = [] := by
      unfold clusterLevels
      rw [hs]
    rw [h1]
    unfold clusterLevels
    rfl
  | cons y ys =>
    have hsorted : List.Sorted (· ≤ ·) (y :: ys) := by
      rw [← hs]
      exact sortQ_sorted levels
    have hposy : ∀ w ∈ y :: ys, 0 < w := by
      intro w hw
      apply hpos
      rw [← List.mem_insertionSort (· ≤ ·)]
      show w ∈ sortQ levels
      rw [hs]
      exact hw
    have h1 : clusterLevels levels tolerance = clusterLoop tolerance [y] y ys := by
      unfold clusterLevels
      rw [hs]
    obtain ⟨hne, _, hposz, hchain⟩ := clusterLoop_spec tolerance htol ys [y] y
      (by simp)
      (by
        intro z hz
        simp only [List.mem_singleton] at hz
        rw [hz]
        exact hposy y (by simp))
      (by
        intro z hz
        simp only [List.mem_singleton] at hz
        rw [hz])
      hsorted
    rw [h1]
    exact clusterLevels_fixed tolerance htol _ hposz hchain

/-- Witness for `clusterLevels_idempotent` on levels `[100, 102, 105]` with
tolerance `1/50`. -/
theorem clusterLevels_idempotent_witness :
    clusterLevels (clusterLevels [100, 102, 105] (1 / 50)) (1 / 50) =
      clusterLevels [100, 102, 105] (1 / 50) :=
  clusterLevels_idempotent [100, 102, 105] (1 / 50)
    (by norm_num) (by norm_num)

/-! ## Claim C8: risk-metrics mapping and the Sortino key -/

theorem calcStats_stdDev_eq (sq : ℚ → ℚ) (values : List ℚ) (h : ¬ values = []) :
    (calcStats sq values).stdDev = sq ((calcStats sq values).variance) := by
  simp [calcStats, h]

/-- Membership of `"sortino_ratio"` in the risk-metrics mapping: present iff
there is a negative return and the population variance of the negative
returns is positive (`downsideDeviation = sqrt(variance)*sqrt(365)` is
positive exactly when that variance is, by the sign property `hsq` of the
square root). -/
theorem sortino_mem_iff (sq lg : ℚ → ℚ) (hsq : ∀ x : ℚ, 0 < sq x ↔ 0 < x)
    (bts : BTCTimeSeries) (h30 : ¬ bts.data.length < 30)
    (hret : ¬ (calculateReturns lg bts).1.length = 0) :
    "sortino_ratio" ∈ (getRiskMetrics sq lg bts).map Prod.fst ↔
      ((calculateReturns lg bts).1.filter (fun r => r < 0) ≠ [] ∧
        0 < (calcStats sq
          ((calculateReturns lg bts).1.filter (fun r => r < 0))).variance) := by
  have h365 : 0 < sq 365 := (hsq 365).mpr (by norm_num)
  simp only [getRiskMetrics, if_neg h30, if_neg hret]
  by_cases hd : 0 < ((calculateReturns lg bts).1.filter (fun r => r < 0)).length
  · have hdne : (calculateReturns lg bts).1.filter (fun r => r < 0) ≠ [] :=
      List.length_pos.mp hd
    rw [if_pos hd, calcStats_stdDev_eq sq _ hdne]
    by_cases hvar : 0 < (calcStats sq
        ((calculateReturns lg bts).1.filter (fun r => r < 0))).variance
    · have hdev : 0 < sq ((calcStats sq
          ((calculateReturns lg bts).1.filter (fun r => r < 0))).variance) * sq 365 :=
        mul_pos ((hsq _).mpr hvar) h365
      rw [if_pos hdev]
      simp only [List.map_append, List.mem_append, List.map_cons, List.map_nil]
      constructor
      · intro _
        exact ⟨hdne, hvar⟩
      · intro _
        simp
    · have hdev : ¬ 0 < sq ((calcStats sq
          ((calculateReturns lg bts).1.filter (fun r => r < 0))).variance) * sq 365 := by
        intro hpos0
        exact hvar ((hsq _).mp ((mul_pos_iff_of_pos_right h365).mp hpos0))
      rw [if_neg hdev]
      constructor
      · intro hmem
        exfalso
        revert hmem
        by_cases hc : 5 * (sortQ (calculateReturns lg bts).1).length / 100 <
            (sortQ (calculateReturns lg bts).1).length
        · rw [if_pos hc]
          intro hmem
          simp only [List.map_append, List.mem_append, List.map_cons, List.map_nil,
            List.append_nil, List.mem_cons, List.mem_singleton,
            List.not_mem_nil] at hmem
          rcases hmem with h | h
          · rcases h with h | h | h | h | h <;> simp_all
          · rcases h with h | h <;> simp_all
        · rw [if_neg hc]
          intro hmem
          simp only [List.map_append, List.mem_append, List.map_cons, List.map_nil,
            List.append_nil, List.mem_cons, List.mem_singleton,
            List.not_mem_nil] at hmem
          rcases hmem with h | h
          · rcases h with h | h | h | h | h <;> simp_all
          · rcases h with h | h <;> simp_all
      · intro ⟨_, hvar'⟩
        exact absurd hvar' hvar
  · have hdeq : (calculateReturns lg bts).1.filter (fun r => r < 0) = [] := by
      rcases List.eq_nil_or_concat ((calculateReturns lg bts).1.filter (fun r => r < 0)) with
        h | ⟨t, a, h⟩
      · exact h
      · exfalso
        apply hd
        rw [h]
        simp
    rw [if_neg hd]
    constructor
    · intro hmem
      exfalso
      revert hmem
      by_cases hc : 5 * (sortQ (calculateReturns lg bts).1).length / 100 <
          (sortQ (calculateReturns lg bts).1).length
      · rw [if_pos hc]
        intro hmem
        simp only [List.map_append, List.mem_append, List.map_cons, List.map_nil,
          List.append_nil, List.mem_cons, List.mem_singleton,
          List.not_mem_nil] at hmem
        rcases hmem with h | h
        · rcases h with h | h | h | h | h <;> simp_all
        · rcases h with h | h <;> simp_all
      · rw [if_neg hc]
        intro hmem
        simp only [List.map_append, List.mem_append, List.map_cons, List.map_nil,
          List.append_nil, List.mem_cons, List.mem_singleton,
          List.not_mem_nil] at hmem
        rcases hmem with h | h
        · rcases h with h | h | h | h | h <;> simp_all
        · rcases h with h | h <;> simp_all
    · intro ⟨hne', _⟩
      exact absurd hdeq hne'

/-- Thirty flat closes followed by a single drop to 1/2: exactly one
negative return. -/
def oneDropSeries : BTCTimeSeries :=
  seriesOf [1, 1, 1, 1, 1, 1, 1, 1, 1, 1, 1, 1, 1, 1, 1, 1, 1, 1, 1, 1, 1, 1,
    1, 1, 1, 1, 1, 1, 1, 1, 1 / 2]

/-- Claim C8, counterexample: `oneDropSeries` has 31 points and a negative
return, yet `"sortino_ratio"` is absent from the mapping — the single
negative return has zero downside variance, so `downsideDeviation = 0` fails
the `> 0` guard (shown for any square root with the sign property, e.g. the
identity on the relevant zero argument). -/
theorem sortino_absent_counterexample :
    30 ≤ oneDropSeries.data.length ∧
    (∃ r ∈ (calculateReturns id oneDropSeries).1, r < 0) ∧
    (∀ x : ℚ, 0 < id x ↔ 0 < x) ∧
    "sortino_ratio" ∉ (getRiskMetrics id id oneDropSeries).map Prod.fst := by
  have hlen : oneDropSeries.data.length = 31 := by
    norm_num [oneDropSeries, seriesOf, barsFrom]
  have hret : (calculateReturns id oneDropSeries).1 =
      [0, 0, 0, 0, 0, 0, 0, 0, 0, 0, 0, 0, 0, 0, 0, 0, 0, 0, 0, 0, 0, 0, 0,
        0, 0, 0, 0, 0, 0, -(1 / 2)] := by
    norm_num [calculateReturns, oneDropSeries, seriesOf, barsFrom, bar,
      getClosePrices]
  refine ⟨by omega, ⟨-(1 / 2), by rw [hret]; simp, by norm_num⟩,
    fun x => Iff.rfl, ?_⟩
  rw [sortino_mem_iff id id (fun x => Iff.rfl) oneDropSeries (by omega)
    (by rw [hret]; simp)]
  rintro ⟨hne', hvar⟩
  have hfil : (calculateReturns id oneDropSeries).1.filter (fun r => r < 0) =
      [-(1 / 2)] := by
    rw [hret]
    norm_num
  rw [hfil] at hvar
  have hzero : (calcStats id [-(1 / 2)]).variance = 0 := by
    norm_num [calcStats]
  rw [hzero] at hvar
  exact lt_irrefl 0 hvar

/-- Claim C8, amended: with fewer than 30 points `GetRiskMetrics` returns an
empty mapping rather than an error; with at least 30 points and at least one
computable return, the mapping contains `"sortino_ratio"` iff at least one
return is negative AND the population variance of the negative returns is
positive (a single negative return gives zero downside deviation and no key). -/
theorem getRiskMetrics_spec (sq lg : ℚ → ℚ) (hsq : ∀ x : ℚ, 0 < sq x ↔ 0 < x)
    (bts : BTCTimeSeries) :
    (bts.data.length < 30 → getRiskMetrics sq lg bts = []) ∧
    (30 ≤ bts.data.length → (calculateReturns lg bts).1 ≠ [] →
      ("sortino_ratio" ∈ (getRiskMetrics sq lg bts).map Prod.fst ↔
        ((calculateReturns lg bts).1.filter (fun r => r < 0) ≠ [] ∧
          0 < (calcStats sq
            ((calculateReturns lg bts).1.filter (fun r => r < 0))).variance))) := by
  refine ⟨fun h => by simp [getRiskMetrics, h], fun h30 hret => ?_⟩
  apply sortino_mem_iff sq lg hsq bts (by omega)
  simpa only [List.length_eq_zero] using hret

/-- Witness for `getRiskMetrics_spec`: a 2-bar series gives the empty
mapping; `oneDropSeries` (31 bars, one computable return) instantiates the
key-membership characterisation. -/
theorem getRiskMetrics_spec_witness :
    getRiskMetrics id id (seriesOf [1, 2]) = [] ∧
    ("sortino_ratio" ∈ (getRiskMetrics id id oneDropSeries).map Prod.fst ↔
      ((calculateReturns id oneDropSeries).1.filter (fun r => r < 0) ≠ [] ∧
        0 < (calcStats id
          ((calculateReturns id oneDropSeries).1.filter (fun r => r < 0))).variance)) := by
  constructor
  · exact (getRiskMetrics_spec id id (fun x => Iff.rfl) (seriesOf [1, 2])).1
      (by norm_num [seriesOf, barsFrom])
  · apply (getRiskMetrics_spec id id (fun x => Iff.rfl) oneDropSeries).2
    · norm_num [oneDropSeries, seriesOf, barsFrom]
    · have hret : (calculateReturns id oneDropSeries).1 =
          [0, 0, 0, 0, 0, 0, 0, 0, 0, 0, 0, 0, 0, 0, 0, 0, 0, 0, 0, 0, 0, 0,
            0, 0, 0, 0, 0, 0, 0, -(1 / 2)] := by
        norm_num [calculateReturns, oneDropSeries, seriesOf, barsFrom, bar,
          getClosePrices]
      rw [hret]
      simp

end BTCAnalyzer
